import Mathlib

/-!
# The notes repository (`internal/notes/repo.go`)

A shallow embedding of the data-access layer of the notes service and of the
part of the MongoDB driver interface it talks to.

* `bson`, `primitive`, `time`, `errors`, `mongo`, `options` model the driver
  types the source imports.  The store itself is a collaborator: it appears as
  a record of operations over an explicit state (`mongo.Collection`), so every
  repository method is a function of the store state it starts from.
* `notes` holds the repository methods, translated statement by statement.
* `memstore` is a small reference store (documents in a list) that follows the
  documented MongoDB behaviour of the handful of queries the repository
  issues.  It is used only where a property speaks about stored data.

Conventions: `context.Context` arguments are dropped (no cancellation is
modelled), `defer cur.Close(ctx)` has no observable effect in the model,
`int64` values are `Int` (the code does no arithmetic on them), a Go slice of
notes is a `List Note` whose empty list stands for the nil slice (the code only
ever builds slices by `append` onto a nil slice, so every slice it returns is
nil or non-empty), and a Go `(value, error)` pair is `value × Option Error`.
-/

/-! ## Driver types -/

namespace time

/-- An instant, as a count of clock ticks since the zero `time.Time`;
the zero value of `time.Time` is tick `0`.  A tick is the resolution at which
the store keeps a timestamp (a millisecond, for a BSON datetime), so two clock
readings within one tick are the same instant here. -/
abbrev Time := Int

end time

namespace primitive

/-- A 12-byte object id, held as the number its bytes spell in big-endian
order; the store orders object ids byte-wise, which is the order of these
numbers. -/
abbrev ObjectID := Nat

/-- The all-zero object id, the zero value of the type. -/
def NilObjectID : ObjectID := 0

/-- Value of one hexadecimal digit (`encoding/hex` accepts both cases). -/
def fromHexChar (c : Char) : Option Nat :=
  if '0' ≤ c ∧ c ≤ '9' then some (c.toNat - '0'.toNat)
  else if 'a' ≤ c ∧ c ≤ 'f' then some (c.toNat - 'a'.toNat + 10)
  else if 'A' ≤ c ∧ c ≤ 'F' then some (c.toNat - 'A'.toNat + 10)
  else none

/-- Reads a run of hexadecimal digits, most significant first. -/
def decodeHex : List Char → Nat → Option Nat
  | [], acc => some acc
  | c :: cs, acc =>
    match fromHexChar c with
    | none => none
    | some d => decodeHex cs (16 * acc + d)

/-- Driver function `primitive.ObjectIDFromHex`: the string must be exactly
24 bytes long and consist of hexadecimal digits; `none` stands for the
non-nil error it returns otherwise. -/
def ObjectIDFromHex (s : String) : Option ObjectID :=
  if s.utf8ByteSize ≠ 24 then none else decodeHex s.data 0

end primitive

namespace bson

mutual
/-- BSON values, as far as the repository and its queries meet them.  A
`double` holds the exact rational value. -/
inductive Value where
  | null
  | int32 (i : Int)
  | str (s : String)
  | double (x : ℚ)
  | datetime (t : time.Time)
  | oid (o : primitive.ObjectID)
  | doc (d : Doc)
/-- A BSON document: keys with values, in the order they were added. -/
inductive Doc where
  | nil
  | cons (key : String) (value : Value) (rest : Doc)
end

deriving instance DecidableEq for Value, Doc

/-- The value stored under a key, if the key is there. -/
def Doc.lookup : Doc → String → Option Value
  | .nil, _ => none
  | .cons k v rest, key => if k = key then some v else rest.lookup key

/-- Map assignment `m[key] = v`: replaces the value of a key that is there,
adds the key otherwise. -/
def Doc.set : Doc → String → Value → Doc
  | .nil, key, v => .cons key v .nil
  | .cons k w rest, key, v =>
    if k = key then .cons k v rest else .cons k w (rest.set key v)

/-- The keys of a document, in order. -/
def Doc.keys : Doc → List String
  | .nil => []
  | .cons k _ rest => k :: rest.keys

/-- Go type `bson.M`, a map from keys to values.  Literals and assignments
build it with `Doc.set`, so it never holds a key twice. -/
abbrev M := Doc

/-- Go type `bson.D`, an ordered document. -/
abbrev D := Doc

/-- A document literal with one entry. -/
def single (key : String) (v : Value) : Doc := .cons key v .nil

end bson

namespace mongo

/-- Errors the driver hands back.  `ErrNoDocuments` is the driver's sentinel;
`wrapped` is an error whose `Unwrap` gives `inner`. -/
inductive DriverError where
  | ErrNoDocuments
  | other (msg : String)
  | wrapped (msg : String) (inner : DriverError)
  deriving DecidableEq, Repr

end mongo

namespace errors

/-- Go function `errors.Is` on driver errors: the error itself or one in its
chain of wrapped errors is the target. -/
def Is (err target : mongo.DriverError) : Bool :=
  if err = target then true
  else
    match err with
    | .wrapped _ inner => Is inner target
    | _ => false

end errors

namespace options

/-- Go type `options.FindOptions`; a field that was never set is `none`.
The Go field `Sort` is `SortBy` here, `Sort` being reserved. -/
structure FindOptions where
  Limit : Option Int := none
  Skip : Option Int := none
  SortBy : Option bson.D := none
  Projection : Option bson.D := none
  deriving DecidableEq

/-- Go function `options.Find()`. -/
def Find : FindOptions := {}

/-- Go method `SetLimit`. -/
def FindOptions.SetLimit (o : FindOptions) (i : Int) : FindOptions := { o with Limit := some i }

/-- Go method `SetSkip`. -/
def FindOptions.SetSkip (o : FindOptions) (i : Int) : FindOptions := { o with Skip := some i }

/-- Go method `SetSort`. -/
def FindOptions.SetSort (o : FindOptions) (d : bson.D) : FindOptions := { o with SortBy := some d }

/-- Go method `SetProjection`. -/
def FindOptions.SetProjection (o : FindOptions) (d : bson.D) : FindOptions :=
  { o with Projection := some d }

/-- Go type `options.ReturnDocument`. -/
inductive ReturnDocument where
  | Before
  | After
  deriving DecidableEq, Repr

/-- Go type `options.FindOneAndUpdateOptions`. -/
structure FindOneAndUpdateOptions where
  ReturnDocument : Option options.ReturnDocument := none
  deriving DecidableEq

/-- Go function `options.FindOneAndUpdate()`. -/
def FindOneAndUpdate : FindOneAndUpdateOptions := {}

/-- Go method `SetReturnDocument`. -/
def FindOneAndUpdateOptions.SetReturnDocument (o : FindOneAndUpdateOptions)
    (rd : options.ReturnDocument) : FindOneAndUpdateOptions :=
  { o with ReturnDocument := some rd }

end options

/-! ## The package's data types -/

namespace notes

/-- Modelled from the spec: the declaration of `Note` is in a file of package
`notes` that is not part of the sources at hand.  The fields are those the
spec's data model lists; `repo.go` reads and writes `ID`, `Title`, `Content`,
`CreatedAt` and `UpdatedAt` with these types. -/
structure Note where
  ID : primitive.ObjectID
  Title : String
  Content : String
  CreatedAt : time.Time
  UpdatedAt : time.Time
  ExpiresAt : Option time.Time
  deriving DecidableEq, Repr

/-- The zero value `Note{}`. -/
def Note.zero : Note :=
  { ID := primitive.NilObjectID, Title := "", Content := "", CreatedAt := 0, UpdatedAt := 0,
    ExpiresAt := none }

/-- Go type `Stats`.  `AvgContentLen` is a `float64` in the source; the model
keeps the exact rational the store computes. -/
structure Stats where
  Count : Int
  AvgContentLen : ℚ
  deriving DecidableEq

/-- Errors a repository method returns: the package's own sentinel
`ErrNotFound` (made with `errors.New` in this package, so no driver error is
identical to it), or an error of the driver, handed on as it is. -/
inductive Error where
  | ErrNotFound
  | driver (e : mongo.DriverError)
  deriving DecidableEq, Repr

end notes

/-! ## The store interface -/

namespace mongo

/-- Go type `mongo.InsertOneResult`; `InsertedID` is an `interface{}`. -/
structure InsertOneResult where
  InsertedID : bson.Value
  deriving DecidableEq

/-- Go type `mongo.DeleteResult`. -/
structure DeleteResult where
  DeletedCount : Int
  deriving DecidableEq

/-- Go type `mongo.Cursor`, seen from its consumer: `docs` are the documents
for which `Next` answers true, each with the outcome of `Decode` on it, and
`err` is what `Err()` reports once `Next` has answered false. -/
structure Cursor (α : Type) where
  docs : List (Except DriverError α)
  err : Option DriverError

/-- Go type `mongo.Pipeline`. -/
abbrev Pipeline := List bson.D

/-- Go type `mongo.Collection`, the collaborator: each operation takes the
state of the store and gives the state after it and its outcome.  `FindOne` and
`FindOneAndUpdate` stand for the call followed by `Decode` into a note. -/
structure Collection (σ : Type) where
  InsertOne : σ → notes.Note → σ × Except DriverError InsertOneResult
  FindOne : σ → bson.M → σ × Except DriverError notes.Note
  Find : σ → bson.M → options.FindOptions → σ × Except DriverError (Cursor notes.Note)
  Aggregate : σ → Pipeline → σ × Except DriverError (Cursor notes.Stats)
  FindOneAndUpdate : σ → bson.M → bson.M → options.FindOneAndUpdateOptions →
    σ × Except DriverError notes.Note
  DeleteOne : σ → bson.M → σ × Except DriverError DeleteResult

/-- One call on a collection, with the arguments it was given. -/
inductive Call where
  | InsertOne (document : notes.Note)
  | FindOne (filter : bson.M)
  | Find (filter : bson.M) (opts : options.FindOptions)
  | Aggregate (pipeline : Pipeline)
  | FindOneAndUpdate (filter update : bson.M) (opts : options.FindOneAndUpdateOptions)
  | DeleteOne (filter : bson.M)
  deriving DecidableEq

/-- A collection that behaves as `col` does and also keeps, next to the
state of `col`, the list of calls it has received, oldest first. -/
def recording {σ : Type} (col : Collection σ) : Collection (σ × List Call) where
  InsertOne := fun s n => (((col.InsertOne s.1 n).1, s.2 ++ [Call.InsertOne n]),
    (col.InsertOne s.1 n).2)
  FindOne := fun s f => (((col.FindOne s.1 f).1, s.2 ++ [Call.FindOne f]), (col.FindOne s.1 f).2)
  Find := fun s f o => (((col.Find s.1 f o).1, s.2 ++ [Call.Find f o]), (col.Find s.1 f o).2)
  Aggregate := fun s p => (((col.Aggregate s.1 p).1, s.2 ++ [Call.Aggregate p]),
    (col.Aggregate s.1 p).2)
  FindOneAndUpdate := fun s f u o =>
    (((col.FindOneAndUpdate s.1 f u o).1, s.2 ++ [Call.FindOneAndUpdate f u o]),
      (col.FindOneAndUpdate s.1 f u o).2)
  DeleteOne := fun s f => (((col.DeleteOne s.1 f).1, s.2 ++ [Call.DeleteOne f]),
    (col.DeleteOne s.1 f).2)

end mongo

/-! ## The repository -/

namespace notes

/-- Go type `[]Note`; the empty list is the nil slice. -/
abbrev NoteSlice := List Note

/-- Go type `Repo`. -/
structure Repo (σ : Type) where
  col : mongo.Collection σ

/-- The type assertion `v.(primitive.ObjectID)`; `none` is the run-time panic
of an assertion that does not hold. -/
def assertObjectID : bson.Value → Option primitive.ObjectID
  | .oid o => some o
  | _ => none

/-- Method `Repo.Create`.  `now` is the reading `time.Now()` gives in this
call; the outer `none` is a panic (the type assertion on `InsertedID`). -/
def Repo.Create {σ : Type} (r : Repo σ) (s : σ) (now : time.Time) (title content : String) :
    σ × Option (Note × Option Error) :=
  let n : Note :=
    { ID := primitive.NilObjectID, Title := title, Content := content, CreatedAt := now,
      UpdatedAt := now, ExpiresAt := none }
  match r.col.InsertOne s n with
  | (s1, .error err) => (s1, some (Note.zero, some (Error.driver err)))
  | (s1, .ok res) =>
    match assertObjectID res.InsertedID with
    | none => (s1, none)
    | some id => (s1, some ({ n with ID := id }, none))

/-- Method `Repo.ByID`. -/
def Repo.ByID {σ : Type} (r : Repo σ) (s : σ) (idHex : String) : σ × (Note × Option Error) :=
  match primitive.ObjectIDFromHex idHex with
  | none => (s, (Note.zero, some Error.ErrNotFound))
  | some oid =>
    match r.col.FindOne s (bson.single "_id" (.oid oid)) with
    | (s1, .error err) =>
      if errors.Is err mongo.DriverError.ErrNoDocuments then
        (s1, (Note.zero, some Error.ErrNotFound))
      else (s1, (Note.zero, some (Error.driver err)))
    | (s1, .ok n) => (s1, (n, none))

/-- The document loop shared by `List` and `ListAfter`:
`for cur.Next(ctx) { Decode; if err return nil, err; out = append(out, n) }`,
started with the slice accumulated so far. -/
def drain : List (Except mongo.DriverError Note) → NoteSlice →
    Except mongo.DriverError NoteSlice
  | [], out => .ok out
  | .error err :: _, _ => .error err
  | .ok n :: rest, out => drain rest (out ++ [n])

/-- What both list methods do with the outcome of `Find`. -/
def collect {σ : Type} (res : σ × Except mongo.DriverError (mongo.Cursor Note)) :
    σ × (NoteSlice × Option Error) :=
  match res with
  | (s1, .error err) => (s1, ([], some (Error.driver err)))
  | (s1, .ok cur) =>
    match drain cur.docs [] with
    | .error err => (s1, ([], some (Error.driver err)))
    | .ok out => (s1, (out, cur.err.map Error.driver))

/-- The filter `List` builds. -/
def listFilter (q : String) : bson.M :=
  let filter : bson.M := .nil
  if q ≠ "" then filter.set "$text" (.doc (bson.single "$search" (.str q))) else filter

/-- The options `List` builds. -/
def listOpts (q : String) (limit skip : Int) : options.FindOptions :=
  let opts := options.Find.SetLimit limit
  let opts := opts.SetSort (bson.single "createdAt" (.int32 (-1)))
  let skip := if skip < 0 then 0 else skip
  let opts := opts.SetSkip skip
  if q ≠ "" then
    let opts := opts.SetProjection (bson.single "score" (.doc (bson.single "$meta" (.str "textScore"))))
    opts.SetSort (bson.single "score" (.doc (bson.single "$meta" (.str "textScore"))))
  else opts

/-- Method `Repo.List`. -/
def Repo.List {σ : Type} (r : Repo σ) (s : σ) (q : String) (limit skip : Int) :
    σ × (NoteSlice × Option Error) :=
  collect (r.col.Find s (listFilter q) (listOpts q limit skip))

/-- The filter `ListAfter` builds. -/
def listAfterFilter (q afterID : String) : bson.M :=
  let filter : bson.M := .nil
  let filter := if q ≠ "" then filter.set "$text" (.doc (bson.single "$search" (.str q))) else filter
  if afterID ≠ "" then
    match primitive.ObjectIDFromHex afterID with
    | some oid => filter.set "_id" (.doc (bson.single "$lt" (.oid oid)))
    | none => filter
  else filter

/-- The options `ListAfter` builds. -/
def listAfterOpts (limit : Int) : options.FindOptions :=
  (options.Find.SetLimit limit).SetSort (bson.single "_id" (.int32 (-1)))

/-- Method `Repo.ListAfter`. -/
def Repo.ListAfter {σ : Type} (r : Repo σ) (s : σ) (q afterID : String) (limit : Int) :
    σ × (NoteSlice × Option Error) :=
  collect (r.col.Find s (listAfterFilter q afterID) (listAfterOpts limit))

/-- The aggregation pipeline of `Stats`. -/
def statsPipeline : mongo.Pipeline :=
  [ bson.single "$project"
      (.doc ((bson.Doc.nil).set "contentLen" (.doc (bson.single "$strLenCP" (.str "$content"))))),
    bson.single "$group"
      (.doc ((((bson.Doc.nil).set "_id" .null).set "count" (.doc (bson.single "$sum" (.int32 1)))).set
        "avgContentLen" (.doc (bson.single "$avg" (.str "$contentLen"))))) ]

/-- Method `Repo.Stats`. -/
def Repo.Stats {σ : Type} (r : Repo σ) (s : σ) : σ × (Stats × Option Error) :=
  match r.col.Aggregate s statsPipeline with
  | (s1, .error err) => (s1, ({ Count := 0, AvgContentLen := 0 }, some (Error.driver err)))
  | (s1, .ok cur) =>
    match cur.docs with
    | .error err :: _ => (s1, ({ Count := 0, AvgContentLen := 0 }, some (Error.driver err)))
    | .ok st :: _ => (s1, (st, none))
    | [] =>
      match cur.err with
      | some err => (s1, ({ Count := 0, AvgContentLen := 0 }, some (Error.driver err)))
      | none => (s1, ({ Count := 0, AvgContentLen := 0 }, none))

/-- The `$set` document `Update` builds; a nil pointer argument is `none`. -/
def updateSet (now : time.Time) (title content : Option String) : bson.M :=
  let set : bson.M := (bson.Doc.nil).set "updatedAt" (.datetime now)
  let set := match title with
    | some t => set.set "title" (.str t)
    | none => set
  match content with
  | some c => set.set "content" (.str c)
  | none => set

/-- Method `Repo.Update`.  `now` is the reading `time.Now()` gives in this
call. -/
def Repo.Update {σ : Type} (r : Repo σ) (s : σ) (now : time.Time) (idHex : String)
    (title content : Option String) : σ × (Note × Option Error) :=
  match primitive.ObjectIDFromHex idHex with
  | none => (s, (Note.zero, some Error.ErrNotFound))
  | some oid =>
    let set := updateSet now title content
    let after := options.FindOneAndUpdate.SetReturnDocument options.ReturnDocument.After
    match r.col.FindOneAndUpdate s (bson.single "_id" (.oid oid)) (bson.single "$set" (.doc set))
        after with
    | (s1, .error err) =>
      if errors.Is err mongo.DriverError.ErrNoDocuments then
        (s1, (Note.zero, some Error.ErrNotFound))
      else (s1, (Note.zero, some (Error.driver err)))
    | (s1, .ok updated) => (s1, (updated, none))

/-- Method `Repo.Delete`. -/
def Repo.Delete {σ : Type} (r : Repo σ) (s : σ) (idHex : String) : σ × Option Error :=
  match primitive.ObjectIDFromHex idHex with
  | none => (s, some Error.ErrNotFound)
  | some oid =>
    match r.col.DeleteOne s (bson.single "_id" (.oid oid)) with
    | (s1, .error err) => (s1, some (Error.driver err))
    | (s1, .ok res) => if res.DeletedCount = 0 then (s1, some Error.ErrNotFound) else (s1, none)

end notes

/-! ## A reference store

Documents are kept in a list, in insertion order.  Each operation follows the
documented MongoDB behaviour for the queries the repository issues and answers
any other query with an error.  The full-text index is left open: a
`TextIndex` says which notes a search string matches and with what score. -/

namespace memstore

open notes

/-- The text index of the collection: matching and relevance of a note for a
search string. -/
structure TextIndex where
  hit : String → Note → Bool
  score : String → Note → Nat

/-- State of the store: the documents and the next object id to hand out. -/
structure State where
  docs : List Note
  nextID : primitive.ObjectID
  deriving DecidableEq

/-- Error of a write that would break the unique index on `title`. -/
def duplicateKey : mongo.DriverError := .other "E11000 duplicate key error"

/-- Error for a query this reference store does not interpret. -/
def unsupported : mongo.DriverError := .other "query not supported"

/-- Whether one filter entry is of a form the store interprets: `_id: oid`,
`_id: {$lt: oid}` or `$text: {$search: q}`. -/
def condSupported (key : String) (v : bson.Value) : Bool :=
  if key = "_id" then
    match v with
    | .oid _ => true
    | .doc (.cons op (.oid _) .nil) => op = "$lt"
    | _ => false
  else if key = "$text" then
    match v with
    | .doc (.cons op (.str _) .nil) => op = "$search"
    | _ => false
  else false

/-- Whether a note satisfies one filter entry. -/
def condHolds (ix : TextIndex) (n : Note) (key : String) (v : bson.Value) : Bool :=
  if key = "_id" then
    match v with
    | .oid o => n.ID = o
    | .doc (.cons op (.oid o) .nil) => op = "$lt" && n.ID < o
    | _ => false
  else if key = "$text" then
    match v with
    | .doc (.cons op (.str q) .nil) => op = "$search" && ix.hit q n
    | _ => false
  else false

/-- Whether every entry of a filter is of a supported form. -/
def supported : bson.Doc → Bool
  | .nil => true
  | .cons k v rest => condSupported k v && supported rest

/-- Whether a note satisfies every entry of a filter. -/
def holds (ix : TextIndex) (filter : bson.Doc) (n : Note) : Bool :=
  match filter with
  | .nil => true
  | .cons k v rest => condHolds ix n k v && holds ix rest n

/-- The search string of the `$text` entry of a filter. -/
def searchString (filter : bson.Doc) : Option String :=
  match filter.lookup "$text" with
  | some (.doc (.cons op (.str q) .nil)) => if op = "$search" then some q else none
  | _ => none

/-- The order a sort document asks for, as "may come before": descending
`_id`, descending `createdAt`, or descending text score. -/
def ordering (ix : TextIndex) (filter : bson.Doc) (sort : bson.Doc) : Option (Note → Note → Bool) :=
  match sort with
  | .cons key (.int32 dir) .nil =>
    if dir = -1 then
      if key = "_id" then some (fun a b => decide (b.ID ≤ a.ID))
      else if key = "createdAt" then some (fun a b => decide (b.CreatedAt ≤ a.CreatedAt))
      else none
    else none
  | .cons key (.doc (.cons op (.str what) .nil)) .nil =>
    if key = "score" ∧ op = "$meta" ∧ what = "textScore" then
      match searchString filter with
      | some q => some (fun a b => decide (ix.score q b ≤ ix.score q a))
      | none => none
    else none
  | _ => none

/-- Skip and limit: a limit of zero is no limit, a negative limit counts as
its absolute value. -/
def window (skip limit : Option Int) (xs : List Note) : List Note :=
  let xs := match skip with
    | some k => xs.drop k.toNat
    | none => xs
  match limit with
  | some k => if k = 0 then xs else xs.take k.natAbs
  | none => xs

/-- A cursor over documents that all decode and that ends without error. -/
def cursorOf {α : Type} (xs : List α) : mongo.Cursor α :=
  { docs := xs.map Except.ok, err := none }

/-- Operation `Find`. -/
def Find (ix : TextIndex) (s : State) (filter : bson.M) (opts : options.FindOptions) :
    State × Except mongo.DriverError (mongo.Cursor Note) :=
  if supported filter then
    let hits := s.docs.filter (holds ix filter)
    match opts.SortBy with
    | none => (s, .ok (cursorOf (window opts.Skip opts.Limit hits)))
    | some sort =>
      match ordering ix filter sort with
      | none => (s, .error unsupported)
      | some le =>
        (s, .ok (cursorOf (window opts.Skip opts.Limit
          (hits.insertionSort (fun a b => le a b = true)))))
  else (s, .error unsupported)

/-- Operation `FindOne`, decoded. -/
def FindOne (ix : TextIndex) (s : State) (filter : bson.M) :
    State × Except mongo.DriverError Note :=
  if supported filter then
    match s.docs.find? (holds ix filter) with
    | some n => (s, .ok n)
    | none => (s, .error mongo.DriverError.ErrNoDocuments)
  else (s, .error unsupported)

/-- Operation `InsertOne`.  The note arrives without an `_id` and gets the
next object id; a title that is already there breaks the unique index. -/
def InsertOne (s : State) (n : Note) : State × Except mongo.DriverError mongo.InsertOneResult :=
  if s.docs.any (fun m => m.Title = n.Title) then (s, .error duplicateKey)
  else
    ({ docs := s.docs ++ [{ n with ID := s.nextID }], nextID := s.nextID + 1 },
      .ok { InsertedID := .oid s.nextID })

/-- Effect of one `$set` entry on a note. -/
def applyField (n : Note) (key : String) (v : bson.Value) : Option Note :=
  if key = "title" then
    match v with
    | .str t => some { n with Title := t }
    | _ => none
  else if key = "content" then
    match v with
    | .str c => some { n with Content := c }
    | _ => none
  else if key = "updatedAt" then
    match v with
    | .datetime t => some { n with UpdatedAt := t }
    | _ => none
  else none

/-- Effect of a `$set` document on a note: the named fields take the given
values, every other field stays. -/
def applySet : bson.Doc → Note → Option Note
  | .nil, n => some n
  | .cons k v rest, n =>
    match applyField n k v with
    | some n1 => applySet rest n1
    | none => none

/-- Puts `n1` in the place of the first document that satisfies `p`. -/
def replaceFirst (p : Note → Bool) (n1 : Note) : List Note → List Note
  | [] => []
  | n :: rest => if p n then n1 :: rest else n :: replaceFirst p n1 rest

/-- Operation `FindOneAndUpdate`, decoded: the first match takes the `$set`,
unless its new title is held by another document. -/
def FindOneAndUpdate (ix : TextIndex) (s : State) (filter update : bson.M)
    (opts : options.FindOneAndUpdateOptions) : State × Except mongo.DriverError Note :=
  if supported filter then
    match update with
    | .cons op (.doc set) .nil =>
      if op = "$set" then
        match s.docs.find? (holds ix filter) with
        | none => (s, .error mongo.DriverError.ErrNoDocuments)
        | some old =>
          match applySet set old with
          | none => (s, .error unsupported)
          | some new =>
            if s.docs.any (fun m => m.ID ≠ old.ID && m.Title = new.Title) then
              (s, .error duplicateKey)
            else
              ({ s with docs := replaceFirst (holds ix filter) new s.docs },
                .ok (if opts.ReturnDocument = some options.ReturnDocument.After then new else old))
      else (s, .error unsupported)
    | _ => (s, .error unsupported)
  else (s, .error unsupported)

/-- Operation `DeleteOne`: removes the first match, if there is one. -/
def DeleteOne (ix : TextIndex) (s : State) (filter : bson.M) :
    State × Except mongo.DriverError mongo.DeleteResult :=
  if supported filter then
    match s.docs.find? (holds ix filter) with
    | none => (s, .ok { DeletedCount := 0 })
    | some _ => ({ s with docs := s.docs.eraseP (holds ix filter) }, .ok { DeletedCount := 1 })
  else (s, .error unsupported)

/-- A stored note as a BSON document, under the field names the repository
uses in its filters, updates, sorts and indexes. -/
def toDoc (n : Note) : bson.Doc :=
  .cons "_id" (.oid n.ID) (.cons "title" (.str n.Title) (.cons "content" (.str n.Content)
    (.cons "createdAt" (.datetime n.CreatedAt) (.cons "updatedAt" (.datetime n.UpdatedAt)
      (match n.ExpiresAt with
        | some t => .cons "expiresAt" (.datetime t) .nil
        | none => .nil)))))

/-- Value of a field path such as `$content` in a row. -/
def fieldOf : bson.Doc → String → Option bson.Value
  | .nil, _ => none
  | .cons k v rest, path => if "$" ++ k = path then some v else fieldOf rest path

/-- Value of a projection expression on a row; `$strLenCP` is the number of
Unicode code points of a string field. -/
def evalExpr (row : bson.Doc) : bson.Value → Option bson.Value
  | .doc (.cons op (.str path) .nil) =>
    if op = "$strLenCP" then
      match fieldOf row path with
      | some (.str str) => some (.int32 str.length)
      | _ => none
    else none
  | _ => none

/-- Stage `$project` on one row: the computed fields next to the row's
`_id`. -/
def projectRow (row : bson.Doc) : bson.Doc → Option bson.Doc
  | .nil =>
    match row.lookup "_id" with
    | some v => some (bson.single "_id" v)
    | none => some .nil
  | .cons k e rest =>
    match evalExpr row e, projectRow row rest with
    | some v, some d => some (d.set k v)
    | _, _ => none

/-- Stage `$project` on all rows. -/
def projectAll (spec : bson.Doc) : List bson.Doc → Option (List bson.Doc)
  | [] => some []
  | row :: rest =>
    match projectRow row spec, projectAll spec rest with
    | some d, some ds => some (d :: ds)
    | _, _ => none

/-- A numeric value as a rational. -/
def numeric : bson.Value → Option ℚ
  | .int32 i => some i
  | .double x => some x
  | _ => none

/-- The numbers a field path holds across the rows. -/
def column (path : String) : List bson.Doc → Option (List ℚ)
  | [] => some []
  | row :: rest =>
    match (fieldOf row path).bind numeric, column path rest with
    | some x, some xs => some (x :: xs)
    | _, _ => none

/-- Value of a `$group` accumulator over the rows of the group: `$sum` of a
constant, or `$avg` of a field. -/
def accumulate (rows : List bson.Doc) : bson.Value → Option bson.Value
  | .doc (.cons op arg .nil) =>
    if op = "$sum" then
      match arg with
      | .int32 k => some (.int32 (k * rows.length))
      | _ => none
    else if op = "$avg" then
      match arg with
      | .str path =>
        match column path rows with
        | some xs => some (.double (xs.sum / xs.length))
        | none => none
      | _ => none
    else none
  | _ => none

/-- Stage `$group` with `_id: null`: the one document that holds every
accumulator over all rows. -/
def groupAll (rows : List bson.Doc) : bson.Doc → Option bson.Doc
  | .nil => some .nil
  | .cons k v rest =>
    match groupAll rows rest with
    | none => none
    | some d =>
      if k = "_id" then (if v = .null then some (.cons k .null d) else none)
      else
        match accumulate rows v with
        | some a => some (.cons k a d)
        | none => none

/-- One pipeline stage.  `$group` over no rows gives no document. -/
def runStage (rows : List bson.Doc) (stage : bson.Doc) : Option (List bson.Doc) :=
  match stage with
  | .cons op (.doc spec) .nil =>
    if op = "$project" then projectAll spec rows
    else if op = "$group" then
      match rows with
      | [] => some []
      | _ :: _ => (groupAll rows spec).map (fun d => [d])
    else none
  | _ => none

/-- The stages of a pipeline, one after the other. -/
def runPipeline : List bson.Doc → mongo.Pipeline → Option (List bson.Doc)
  | rows, [] => some rows
  | rows, stage :: rest =>
    match runStage rows stage with
    | some rows1 => runPipeline rows1 rest
    | none => none

/-- Decoding of a result document into `Stats`, by the `bson` tags of the
struct. -/
def decodeStats (d : bson.Doc) : Except mongo.DriverError Stats :=
  match d.lookup "count", d.lookup "avgContentLen" with
  | some (.int32 c), some (.double a) => .ok { Count := c, AvgContentLen := a }
  | _, _ => .error (.other "cannot decode into Stats")

/-- Operation `Aggregate`. -/
def Aggregate (s : State) (pipeline : mongo.Pipeline) :
    State × Except mongo.DriverError (mongo.Cursor Stats) :=
  match runPipeline (s.docs.map toDoc) pipeline with
  | some rows => (s, .ok { docs := rows.map decodeStats, err := none })
  | none => (s, .error unsupported)

/-- The reference store as a collection. -/
def collection (ix : TextIndex) : mongo.Collection State where
  InsertOne := InsertOne
  FindOne := FindOne ix
  Find := Find ix
  Aggregate := Aggregate
  FindOneAndUpdate := FindOneAndUpdate ix
  DeleteOne := DeleteOne ix

/-- A repository on the reference store. -/
def repo (ix : TextIndex) : Repo State := { col := collection ix }

/-- A text index by exact comparison: a note is hit when its title or its
content is the search string; the score counts the fields that are. -/
def exactIndex : TextIndex where
  hit := fun q n => n.Title = q || n.Content = q
  score := fun q n => (if n.Title = q then 1 else 0) + (if n.Content = q then 1 else 0)

end memstore

/-! ## Rows of the statistics pipeline -/

namespace memstore

open notes

/-- The row the `$project` stage of `Stats` makes of a stored note. -/
def lengthRow (n : Note) : bson.Doc :=
  .cons "_id" (.oid n.ID) (.cons "contentLen" (.int32 n.Content.length) .nil)

end memstore

/-! ## Sample data -/

namespace memstore

open notes

/-- A store holding one note, as `Create` at tick 100 leaves an empty store
whose next id is 1. -/
def oneNote : State :=
  { docs := [{ ID := 1, Title := "a", Content := "abc", CreatedAt := 100, UpdatedAt := 100,
               ExpiresAt := none }],
    nextID := 2 }

/-- The note of `oneNote` after its title became `"b"` at tick 250. -/
def retitledNote : Note :=
  { ID := 1, Title := "b", Content := "abc", CreatedAt := 100, UpdatedAt := 250,
    ExpiresAt := none }

/-- The store `oneNote` after that update. -/
def oneNoteRetitled : State := { docs := [retitledNote], nextID := 2 }

/-- A store holding two notes, with contents of three and of five code
points (the second takes six bytes in UTF-8). -/
def twoNotes : State :=
  { docs := [{ ID := 1, Title := "a", Content := "abc", CreatedAt := 100, UpdatedAt := 100,
               ExpiresAt := none },
             { ID := 2, Title := "b", Content := "héllo", CreatedAt := 110, UpdatedAt := 110,
               ExpiresAt := none }],
    nextID := 3 }

/-- A store holding three notes. -/
def threeNotes : State :=
  { docs := [{ ID := 1, Title := "a", Content := "abc", CreatedAt := 100, UpdatedAt := 100,
               ExpiresAt := none },
             { ID := 2, Title := "b", Content := "héllo", CreatedAt := 110, UpdatedAt := 110,
               ExpiresAt := none },
             { ID := 3, Title := "c", Content := "", CreatedAt := 120, UpdatedAt := 120,
               ExpiresAt := none }],
    nextID := 4 }

end memstore

namespace mongo

/-- A collection that behaves as `col` does, except that every cursor of
`Find` breaks after its first document: `Next` answers false from then on and
`Err()` reports a lost connection. -/
def breaking {σ : Type} (col : Collection σ) : Collection σ :=
  { col with
    Find := fun s f o =>
      match col.Find s f o with
      | (s1, .ok cur) =>
        (s1, .ok { docs := cur.docs.take 1, err := some (.other "connection reset by peer") })
      | (s1, .error e) => (s1, .error e) }

end mongo

/-! ## Lemmas on the repository methods -/

namespace notes

/-- What `ByID` does once the identifier has parsed. -/
theorem byID_of_parsed {σ : Type} (r : Repo σ) (s : σ) (idHex : String)
    (oid : primitive.ObjectID) (h : primitive.ObjectIDFromHex idHex = some oid) :
    r.ByID s idHex =
      match r.col.FindOne s (bson.single "_id" (.oid oid)) with
      | (s1, .error err) =>
        if errors.Is err mongo.DriverError.ErrNoDocuments then
          (s1, (Note.zero, some Error.ErrNotFound))
        else (s1, (Note.zero, some (Error.driver err)))
      | (s1, .ok n) => (s1, (n, none)) := by
  simp [Repo.ByID, h]

/-- What `Update` does once the identifier has parsed. -/
theorem update_of_parsed {σ : Type} (r : Repo σ) (s : σ) (now : time.Time) (idHex : String)
    (title content : Option String) (oid : primitive.ObjectID)
    (h : primitive.ObjectIDFromHex idHex = some oid) :
    r.Update s now idHex title content =
      match r.col.FindOneAndUpdate s (bson.single "_id" (.oid oid))
          (bson.single "$set" (.doc (updateSet now title content)))
          (options.FindOneAndUpdate.SetReturnDocument options.ReturnDocument.After) with
      | (s1, .error err) =>
        if errors.Is err mongo.DriverError.ErrNoDocuments then
          (s1, (Note.zero, some Error.ErrNotFound))
        else (s1, (Note.zero, some (Error.driver err)))
      | (s1, .ok updated) => (s1, (updated, none)) := by
  simp [Repo.Update, h]

/-- What `Delete` does once the identifier has parsed. -/
theorem delete_of_parsed {σ : Type} (r : Repo σ) (s : σ) (idHex : String)
    (oid : primitive.ObjectID) (h : primitive.ObjectIDFromHex idHex = some oid) :
    r.Delete s idHex =
      match r.col.DeleteOne s (bson.single "_id" (.oid oid)) with
      | (s1, .error err) => (s1, some (Error.driver err))
      | (s1, .ok res) =>
        if res.DeletedCount = 0 then (s1, some Error.ErrNotFound) else (s1, none) := by
  simp [Repo.Delete, h]

end notes

/-! ## Lemmas on the reference store -/

namespace memstore

open notes

/-- The filter `_id: oid` selects the notes with that id. -/
theorem holds_id (ix : TextIndex) (oid : primitive.ObjectID) :
    holds ix (.cons "_id" (.oid oid) .nil) = fun m => decide (m.ID = oid) := by
  funext m
  simp [holds, condHolds]

/-- The filter `_id: oid` is one the reference store interprets. -/
theorem supported_id (oid : primitive.ObjectID) :
    supported (.cons "_id" (.oid oid) .nil) = true := by
  simp [supported, condSupported]

/-- Effect of the `$set` document of `Update` on a stored note. -/
theorem applySet_updateSet (now : time.Time) (title content : Option String) (old : Note) :
    applySet (updateSet now title content) old =
      some { old with UpdatedAt := now, Title := title.getD old.Title,
                      Content := content.getD old.Content } := by
  cases title <;> cases content <;>
    simp [updateSet, bson.Doc.set, applySet, applyField]

/-- Replacing the first match by a note that agrees with it under `f` leaves
the `f`-image of the list as it was. -/
theorem map_replaceFirst {β : Type} (f : Note → β) (p : Note → Bool) (new old : Note)
    (l : List Note) (hfind : l.find? p = some old) (hf : f new = f old) :
    (replaceFirst p new l).map f = l.map f := by
  induction l with
  | nil => simp at hfind
  | cons a rest ih =>
    by_cases hp : p a = true
    · simp [List.find?, hp] at hfind
      subst hfind
      simp [replaceFirst, hp, hf]
    · simp [List.find?, hp] at hfind
      simp [replaceFirst, hp, ih hfind]

/-- After the first match is replaced by a note that matches too, that note
is the first match. -/
theorem find_replaceFirst (p : Note → Bool) (new old : Note) (l : List Note)
    (hfind : l.find? p = some old) (hp : p new = true) :
    (replaceFirst p new l).find? p = some new := by
  induction l with
  | nil => simp at hfind
  | cons a rest ih =>
    by_cases ha : p a = true
    · simp [replaceFirst, ha, List.find?, hp]
    · simp only [List.find?, ha] at hfind
      simp [replaceFirst, ha, List.find?, ih hfind]

/-- A successful `Update` on the reference store: the first note with the id
is replaced by itself with the `$set` applied, and that note is returned. -/
theorem update_ok (ix : TextIndex) (st st1 : State) (now : time.Time) (idHex : String)
    (title content : Option String) (oid : primitive.ObjectID) (n1 : Note)
    (h : primitive.ObjectIDFromHex idHex = some oid)
    (hu : (repo ix).Update st now idHex title content = (st1, (n1, none))) :
    ∃ old, st.docs.find? (fun m => decide (m.ID = oid)) = some old ∧
      n1 = { old with UpdatedAt := now, Title := title.getD old.Title,
                      Content := content.getD old.Content } ∧
      st1 = { st with docs := replaceFirst (fun m => decide (m.ID = oid)) n1 st.docs } := by
  rw [update_of_parsed _ _ _ _ _ _ oid h] at hu
  simp only [repo, collection, FindOneAndUpdate, bson.single, supported_id, holds_id,
    if_true] at hu
  cases hfind : st.docs.find? (fun m => decide (m.ID = oid)) with
  | none =>
    rw [hfind] at hu
    simp [errors.Is] at hu
  | some old =>
    rw [hfind] at hu
    simp only [applySet_updateSet] at hu
    refine ⟨old, rfl, ?_⟩
    by_cases hdup : (st.docs.any fun m =>
        decide (m.ID ≠ old.ID) && decide (m.Title = title.getD old.Title)) = true
    · rw [if_pos hdup] at hu
      simp [duplicateKey, errors.Is] at hu
    · rw [if_neg hdup] at hu
      simp only [options.FindOneAndUpdate, options.FindOneAndUpdateOptions.SetReturnDocument,
        if_true, Prod.mk.injEq, and_true] at hu
      obtain ⟨hs, hn⟩ := hu
      subst hn
      exact ⟨rfl, hs.symm⟩

/-- The loop over a cursor whose documents all decode appends them all. -/
theorem drain_ok (xs : List Note) (acc : NoteSlice) :
    drain (xs.map Except.ok) acc = .ok (acc ++ xs) := by
  induction xs generalizing acc with
  | nil => simp [drain]
  | cons a rest ih => simp [drain, ih]

/-- Both list methods return the documents of a clean cursor as they are. -/
theorem collect_cursorOf {σ : Type} (s : σ) (xs : List Note) :
    collect (s, .ok (cursorOf xs)) = (s, (xs, none)) := by
  simp [collect, cursorOf, drain_ok]

/-- Skip and limit keep a sublist. -/
theorem window_sublist (skip limit : Option Int) (xs : List Note) :
    (window skip limit xs).Sublist xs := by
  unfold window
  have hdrop : (match skip with
      | some k => xs.drop k.toNat
      | none => xs).Sublist xs := by
    cases skip with
    | none => exact List.Sublist.refl _
    | some k => exact List.drop_sublist _ _
  cases limit with
  | none => exact hdrop
  | some k =>
    by_cases hk : k = 0
    · simpa [hk] using hdrop
    · simp only [hk, if_false]
      exact (List.take_sublist _ _).trans hdrop

/-- An identifier that parses is not the empty string. -/
theorem parsed_ne_empty (afterID : String) (oid : primitive.ObjectID)
    (h : primitive.ObjectIDFromHex afterID = some oid) : afterID ≠ "" := by
  intro he
  subst he
  have hnone : primitive.ObjectIDFromHex "" = none := by decide
  rw [hnone] at h
  cases h

/-- The filter of `ListAfter` is one the reference store interprets. -/
theorem supported_listAfterFilter (q afterID : String) :
    supported (listAfterFilter q afterID) = true := by
  unfold listAfterFilter
  by_cases hq : q = "" <;> by_cases ha : afterID = "" <;>
    cases hp : primitive.ObjectIDFromHex afterID <;>
    simp [hq, ha, bson.Doc.set, bson.single, supported, condSupported]

/-- What the filter of `ListAfter` asks of a note when the cursor id parses. -/
theorem holds_listAfterFilter (ix : TextIndex) (q afterID : String) (oid : primitive.ObjectID)
    (h : primitive.ObjectIDFromHex afterID = some oid) (n : Note) :
    holds ix (listAfterFilter q afterID) n =
      ((if q = "" then true else ix.hit q n) && decide (n.ID < oid)) := by
  have ha := parsed_ne_empty afterID oid h
  unfold listAfterFilter
  by_cases hq : q = "" <;>
    simp [hq, ha, h, bson.Doc.set, bson.single, holds, condHolds]

/-- The answer of the reference store to `ListAfter` with a cursor id that
parses. -/
theorem listAfter_on_store (ix : TextIndex) (st : State) (q afterID : String) (limit : Int) :
    (repo ix).ListAfter st q afterID limit =
      (st, (window none (some limit)
        ((st.docs.filter (holds ix (listAfterFilter q afterID))).insertionSort
          (fun a b => decide (b.ID ≤ a.ID) = true)), none)) := by
  simp only [Repo.ListAfter, repo, collection, Find, supported_listAfterFilter, if_true]
  simp [listAfterOpts, options.Find, options.FindOptions.SetLimit, options.FindOptions.SetSort,
    bson.single, ordering, collect_cursorOf]

/-- The `$project` stage of `Stats` on a stored note. -/
theorem projectRow_toDoc (n : Note) :
    projectRow (toDoc n)
      (.cons "contentLen" (.doc (.cons "$strLenCP" (.str "$content") .nil)) .nil) =
      some (lengthRow n) := by
  simp [projectRow, evalExpr, toDoc, fieldOf, bson.Doc.lookup, bson.Doc.set, bson.single, lengthRow]

/-- The `$project` stage of `Stats` on the whole collection. -/
theorem projectAll_toDoc (docs : List Note) :
    projectAll (.cons "contentLen" (.doc (.cons "$strLenCP" (.str "$content") .nil)) .nil)
      (docs.map toDoc) = some (docs.map lengthRow) := by
  induction docs with
  | nil => simp [projectAll]
  | cons a rest ih => simp [projectAll, projectRow_toDoc, ih]

/-- The content lengths, as the `$avg` accumulator reads them. -/
theorem column_lengthRow (docs : List Note) :
    column "$contentLen" (docs.map lengthRow) =
      some (docs.map fun n => ((n.Content.length : Int) : ℚ)) := by
  induction docs with
  | nil => simp [column]
  | cons a rest ih => simp [column, ih, lengthRow, fieldOf, numeric]

/-- The pipeline of `Stats` on the reference store: no document for an empty
collection, else one document with the count and the mean content length. -/
theorem runPipeline_stats (docs : List Note) :
    runPipeline (docs.map toDoc) statsPipeline =
      some (match docs with
        | [] => []
        | _ :: _ =>
          [.cons "_id" .null (.cons "count" (.int32 docs.length)
            (.cons "avgContentLen"
              (.double ((docs.map fun n => ((n.Content.length : Int) : ℚ)).sum / docs.length))
              .nil))]) := by
  have hp := projectAll_toDoc docs
  simp only [statsPipeline, runPipeline, runStage, bson.single, bson.Doc.set] at hp ⊢
  simp only [hp]
  cases docs with
  | nil => simp
  | cons a rest =>
    have hc := column_lengthRow (a :: rest)
    simp only [List.map_cons] at hc
    simp [groupAll, accumulate, hc]

/-- The answer of `Stats` on the reference store. -/
theorem stats_on_store (ix : TextIndex) (st : State) :
    (repo ix).Stats st =
      (st, (if st.docs = [] then { Count := 0, AvgContentLen := 0 }
        else { Count := st.docs.length,
               AvgContentLen := (st.docs.map fun n => ((n.Content.length : Int) : ℚ)).sum /
                 st.docs.length }, none)) := by
  simp only [Repo.Stats, repo, collection, Aggregate, runPipeline_stats]
  cases hd : st.docs with
  | nil => simp
  | cons a rest => simp [decodeStats, bson.Doc.lookup]

end memstore

/-! ## Properties of the repository -/

namespace notes

/-! ### Identifiers that do not parse -/

/-- C1: for an identifier that `ObjectIDFromHex` rejects, `ByID` and `Update`
return the zero note with `ErrNotFound` and `Delete` returns `ErrNotFound`,
whatever the store is; the state of the store is the one the call started
from, and a store that records its calls has recorded none. -/
theorem malformed_id_is_not_found {σ : Type} (r : Repo σ) (s : σ) (idHex : String)
    (h : primitive.ObjectIDFromHex idHex = none) :
    r.ByID s idHex = (s, (Note.zero, some Error.ErrNotFound)) ∧
    (∀ now title content,
      r.Update s now idHex title content = (s, (Note.zero, some Error.ErrNotFound))) ∧
    r.Delete s idHex = (s, some Error.ErrNotFound) ∧
    (∀ log : List mongo.Call,
      ((Repo.mk (mongo.recording r.col)).ByID (s, log) idHex).1 = (s, log) ∧
      (∀ now title content,
        ((Repo.mk (mongo.recording r.col)).Update (s, log) now idHex title content).1 = (s, log)) ∧
      ((Repo.mk (mongo.recording r.col)).Delete (s, log) idHex).1 = (s, log)) := by
  simp [Repo.ByID, Repo.Update, Repo.Delete, h]

/-- C1 at the identifier `"not-an-id"` on a reference store holding one
note. -/
theorem malformed_id_is_not_found_witness :
    primitive.ObjectIDFromHex "not-an-id" = none ∧
    (memstore.repo memstore.exactIndex).ByID
        { docs := [{ ID := 1, Title := "a", Content := "abc", CreatedAt := 100, UpdatedAt := 100,
                     ExpiresAt := none }], nextID := 2 } "not-an-id" =
      ({ docs := [{ ID := 1, Title := "a", Content := "abc", CreatedAt := 100, UpdatedAt := 100,
                    ExpiresAt := none }], nextID := 2 }, (Note.zero, some Error.ErrNotFound)) :=
  ⟨by decide, (malformed_id_is_not_found (memstore.repo memstore.exactIndex) _ "not-an-id"
    (by decide)).1⟩

/-! ### Identifiers that parse -/

/-- C2: for an identifier that parses, `ByID` and `Update` return
`ErrNotFound` exactly when the store call fails with an error that is
`ErrNoDocuments`, `Delete` does exactly when the store call succeeds with a
deleted count of zero; every other error of the store comes back as it is,
next to the zero note; a decoded note comes back as it is, and a delete that
removed something returns no error.  (`errors.Is` follows the chain of wrapped
errors, as in Go.) -/
theorem parsed_id_outcomes {σ : Type} (r : Repo σ) (s : σ) (now : time.Time) (idHex : String)
    (title content : Option String) (oid : primitive.ObjectID)
    (h : primitive.ObjectIDFromHex idHex = some oid) :
    ((r.ByID s idHex).2.2 = some Error.ErrNotFound ↔
      ∃ e, (r.col.FindOne s (bson.single "_id" (.oid oid))).2 = .error e ∧
        errors.Is e mongo.DriverError.ErrNoDocuments = true) ∧
    (∀ e, (r.col.FindOne s (bson.single "_id" (.oid oid))).2 = .error e →
      errors.Is e mongo.DriverError.ErrNoDocuments = false →
      r.ByID s idHex =
        ((r.col.FindOne s (bson.single "_id" (.oid oid))).1, (Note.zero, some (Error.driver e)))) ∧
    (∀ n, (r.col.FindOne s (bson.single "_id" (.oid oid))).2 = .ok n →
      r.ByID s idHex = ((r.col.FindOne s (bson.single "_id" (.oid oid))).1, (n, none))) ∧
    ((r.Update s now idHex title content).2.2 = some Error.ErrNotFound ↔
      ∃ e, (r.col.FindOneAndUpdate s (bson.single "_id" (.oid oid))
          (bson.single "$set" (.doc (updateSet now title content)))
          (options.FindOneAndUpdate.SetReturnDocument options.ReturnDocument.After)).2 = .error e ∧
        errors.Is e mongo.DriverError.ErrNoDocuments = true) ∧
    (∀ e, (r.col.FindOneAndUpdate s (bson.single "_id" (.oid oid))
          (bson.single "$set" (.doc (updateSet now title content)))
          (options.FindOneAndUpdate.SetReturnDocument options.ReturnDocument.After)).2 = .error e →
      errors.Is e mongo.DriverError.ErrNoDocuments = false →
      r.Update s now idHex title content =
        ((r.col.FindOneAndUpdate s (bson.single "_id" (.oid oid))
          (bson.single "$set" (.doc (updateSet now title content)))
          (options.FindOneAndUpdate.SetReturnDocument options.ReturnDocument.After)).1,
          (Note.zero, some (Error.driver e)))) ∧
    (∀ n, (r.col.FindOneAndUpdate s (bson.single "_id" (.oid oid))
          (bson.single "$set" (.doc (updateSet now title content)))
          (options.FindOneAndUpdate.SetReturnDocument options.ReturnDocument.After)).2 = .ok n →
      r.Update s now idHex title content =
        ((r.col.FindOneAndUpdate s (bson.single "_id" (.oid oid))
          (bson.single "$set" (.doc (updateSet now title content)))
          (options.FindOneAndUpdate.SetReturnDocument options.ReturnDocument.After)).1,
          (n, none))) ∧
    ((r.Delete s idHex).2 = some Error.ErrNotFound ↔
      ∃ res, (r.col.DeleteOne s (bson.single "_id" (.oid oid))).2 = .ok res ∧
        res.DeletedCount = 0) ∧
    (∀ e, (r.col.DeleteOne s (bson.single "_id" (.oid oid))).2 = .error e →
      r.Delete s idHex =
        ((r.col.DeleteOne s (bson.single "_id" (.oid oid))).1, some (Error.driver e))) ∧
    (∀ res, (r.col.DeleteOne s (bson.single "_id" (.oid oid))).2 = .ok res →
      res.DeletedCount ≠ 0 →
      r.Delete s idHex = ((r.col.DeleteOne s (bson.single "_id" (.oid oid))).1, none)) := by
  rw [byID_of_parsed r s idHex oid h, update_of_parsed r s now idHex title content oid h,
    delete_of_parsed r s idHex oid h]
  refine ⟨?_, ?_, ?_, ?_, ?_, ?_, ?_, ?_, ?_⟩
  · rcases r.col.FindOne s (bson.single "_id" (.oid oid)) with ⟨s1, e | n⟩
    · by_cases he : errors.Is e mongo.DriverError.ErrNoDocuments = true <;> simp [he]
    · simp
  · rcases r.col.FindOne s (bson.single "_id" (.oid oid)) with ⟨s1, e1 | n⟩
    · intro e he hne
      simp only [Except.error.injEq] at he
      subst he
      simp [hne]
    · intro e he
      simp at he
  · rcases r.col.FindOne s (bson.single "_id" (.oid oid)) with ⟨s1, e1 | n1⟩
    · intro n hn
      simp at hn
    · intro n hn
      simp only [Except.ok.injEq] at hn
      subst hn
      simp
  · rcases r.col.FindOneAndUpdate s (bson.single "_id" (.oid oid)) _ _ with ⟨s1, e | n⟩
    · by_cases he : errors.Is e mongo.DriverError.ErrNoDocuments = true <;> simp [he]
    · simp
  · rcases r.col.FindOneAndUpdate s (bson.single "_id" (.oid oid)) _ _ with ⟨s1, e1 | n⟩
    · intro e he hne
      simp only [Except.error.injEq] at he
      subst he
      simp [hne]
    · intro e he
      simp at he
  · rcases r.col.FindOneAndUpdate s (bson.single "_id" (.oid oid)) _ _ with ⟨s1, e1 | n1⟩
    · intro n hn
      simp at hn
    · intro n hn
      simp only [Except.ok.injEq] at hn
      subst hn
      simp
  · rcases r.col.DeleteOne s (bson.single "_id" (.oid oid)) with ⟨s1, e | res⟩
    · simp
    · by_cases hc : res.DeletedCount = 0 <;> simp [hc]
  · rcases r.col.DeleteOne s (bson.single "_id" (.oid oid)) with ⟨s1, e1 | res⟩
    · intro e he
      simp only [Except.error.injEq] at he
      subst he
      simp
    · intro e he
      simp at he
  · rcases r.col.DeleteOne s (bson.single "_id" (.oid oid)) with ⟨s1, e1 | res1⟩
    · intro res hres
      simp at hres
    · intro res hres hc
      simp only [Except.ok.injEq] at hres
      subst hres
      simp [hc]

/-- C2 on a reference store holding one note with id 1: `ByID` returns
that note for the id 1 and `ErrNotFound` for the id 2. -/
theorem parsed_id_outcomes_witness :
    primitive.ObjectIDFromHex "000000000000000000000001" = some 1 ∧
    (memstore.repo memstore.exactIndex).ByID
        { docs := [{ ID := 1, Title := "a", Content := "abc", CreatedAt := 100, UpdatedAt := 100,
                     ExpiresAt := none }], nextID := 2 } "000000000000000000000001" =
      ({ docs := [{ ID := 1, Title := "a", Content := "abc", CreatedAt := 100, UpdatedAt := 100,
                    ExpiresAt := none }], nextID := 2 },
        ({ ID := 1, Title := "a", Content := "abc", CreatedAt := 100, UpdatedAt := 100,
           ExpiresAt := none }, none)) ∧
    ((memstore.repo memstore.exactIndex).ByID
        { docs := [{ ID := 1, Title := "a", Content := "abc", CreatedAt := 100, UpdatedAt := 100,
                     ExpiresAt := none }], nextID := 2 } "000000000000000000000002").2.2 =
      some Error.ErrNotFound :=
  ⟨by decide,
    (parsed_id_outcomes (memstore.repo memstore.exactIndex)
      { docs := [{ ID := 1, Title := "a", Content := "abc", CreatedAt := 100, UpdatedAt := 100,
                   ExpiresAt := none }], nextID := 2 }
      0 "000000000000000000000001" none none 1 (by decide)).2.2.1
      { ID := 1, Title := "a", Content := "abc", CreatedAt := 100, UpdatedAt := 100,
        ExpiresAt := none } rfl,
    (parsed_id_outcomes (memstore.repo memstore.exactIndex)
      { docs := [{ ID := 1, Title := "a", Content := "abc", CreatedAt := 100, UpdatedAt := 100,
                   ExpiresAt := none }], nextID := 2 }
      0 "000000000000000000000002" none none 2 (by decide)).1.mpr
      ⟨mongo.DriverError.ErrNoDocuments, rfl, by decide⟩⟩

/-! ### The `$set` document of `Update` -/

/-- C3: for an identifier that parses, `Update` sends the store one
`FindOneAndUpdate` whose `$set` document holds `updatedAt` (the clock reading)
always, `title` exactly when a title is given, with that value, `content`
exactly when a content is given, and no other key.  On the reference store a
successful update without content leaves every stored content as it was, and
one without title leaves every stored title as it was. -/
theorem update_sets_only_given_fields {σ : Type} (r : Repo σ) (s : σ) (now : time.Time)
    (idHex : String) (title content : Option String) (oid : primitive.ObjectID)
    (h : primitive.ObjectIDFromHex idHex = some oid) :
    ((Repo.mk (mongo.recording r.col)).Update (s, []) now idHex title content).1.2 =
      [mongo.Call.FindOneAndUpdate (bson.single "_id" (.oid oid))
        (bson.single "$set" (.doc (updateSet now title content)))
        (options.FindOneAndUpdate.SetReturnDocument options.ReturnDocument.After)] ∧
    (updateSet now title content).lookup "updatedAt" = some (.datetime now) ∧
    (updateSet now title content).lookup "title" = title.map bson.Value.str ∧
    (updateSet now title content).lookup "content" = content.map bson.Value.str ∧
    (updateSet now title content).keys =
      "updatedAt" :: ((title.map fun _ => "title").toList ++
        (content.map fun _ => "content").toList) ∧
    (∀ (ix : memstore.TextIndex) (st st1 : memstore.State) (n1 : Note),
      (memstore.repo ix).Update st now idHex title content = (st1, (n1, none)) →
      ∃ old, st.docs.find? (fun m => decide (m.ID = oid)) = some old ∧
        n1.ID = oid ∧
        (∀ t, title = some t → n1.Title = t) ∧
        (∀ c, content = some c → n1.Content = c) ∧
        (title = none → n1.Title = old.Title ∧
          st1.docs.map (fun m => m.Title) = st.docs.map (fun m => m.Title)) ∧
        (content = none → n1.Content = old.Content ∧
          st1.docs.map (fun m => m.Content) = st.docs.map (fun m => m.Content))) := by
  refine ⟨?_, ?_, ?_, ?_, ?_, ?_⟩
  · simp only [Repo.Update, h, mongo.recording, List.nil_append]
    rcases r.col.FindOneAndUpdate s _ _ _ with ⟨s1, e | n⟩
    · by_cases he : errors.Is e mongo.DriverError.ErrNoDocuments = true <;> simp [he]
    · simp
  · cases title <;> cases content <;> simp [updateSet, bson.Doc.set, bson.Doc.lookup]
  · cases title <;> cases content <;> simp [updateSet, bson.Doc.set, bson.Doc.lookup]
  · cases title <;> cases content <;> simp [updateSet, bson.Doc.set, bson.Doc.lookup]
  · cases title <;> cases content <;> simp [updateSet, bson.Doc.set, bson.Doc.keys]
  · intro ix st st1 n1 hu
    obtain ⟨old, hfind, hn1, hst1⟩ := memstore.update_ok ix st st1 now idHex title content oid n1 h hu
    have hid : old.ID = oid := by
      have := List.find?_some hfind
      simpa using this
    refine ⟨old, hfind, ?_, ?_, ?_, ?_, ?_⟩
    · rw [hn1]; exact hid
    · intro t ht; rw [hn1, ht]; rfl
    · intro c hc; rw [hn1, hc]; rfl
    · intro ht
      have hT : n1.Title = old.Title := by rw [hn1, ht]; rfl
      refine ⟨hT, ?_⟩
      rw [hst1]
      exact memstore.map_replaceFirst (fun m => m.Title) _ n1 old st.docs hfind hT
    · intro hc
      have hC : n1.Content = old.Content := by rw [hn1, hc]; rfl
      refine ⟨hC, ?_⟩
      rw [hst1]
      exact memstore.map_replaceFirst (fun m => m.Content) _ n1 old st.docs hfind hC

/-- C3 on a reference store holding one note: an update that gives only the
empty title succeeds and leaves the content `"abc"` in place. -/
theorem update_sets_only_given_fields_witness :
    primitive.ObjectIDFromHex "000000000000000000000001" = some 1 ∧
    (updateSet 200 (some "") none).lookup "title" = some (.str "") ∧
    (updateSet 200 (some "") none).lookup "content" = none ∧
    (memstore.repo memstore.exactIndex).Update
        { docs := [{ ID := 1, Title := "a", Content := "abc", CreatedAt := 100, UpdatedAt := 100,
                     ExpiresAt := none }], nextID := 2 }
        200 "000000000000000000000001" (some "") none =
      ({ docs := [{ ID := 1, Title := "", Content := "abc", CreatedAt := 100, UpdatedAt := 200,
                    ExpiresAt := none }], nextID := 2 },
        ({ ID := 1, Title := "", Content := "abc", CreatedAt := 100, UpdatedAt := 200,
           ExpiresAt := none }, none)) :=
  ⟨by decide,
    (update_sets_only_given_fields (memstore.repo memstore.exactIndex)
      { docs := [{ ID := 1, Title := "a", Content := "abc", CreatedAt := 100, UpdatedAt := 100,
                   ExpiresAt := none }], nextID := 2 }
      200 "000000000000000000000001" (some "") none 1 (by decide)).2.2.1,
    (update_sets_only_given_fields (memstore.repo memstore.exactIndex)
      { docs := [{ ID := 1, Title := "a", Content := "abc", CreatedAt := 100, UpdatedAt := 100,
                   ExpiresAt := none }], nextID := 2 }
      200 "000000000000000000000001" (some "") none 1 (by decide)).2.2.2.1,
    by decide⟩

/-! ### The cursor condition of `ListAfter` -/

/-- C4: `ListAfter` sends one `Find` with limit `limit` and sort `_id: -1`;
its filter holds the condition `_id: {$lt: oid}` exactly when `afterID` is
non-empty and parses to `oid`, and holds no `_id` entry otherwise; with an
`afterID` that does not parse the method behaves on every store as it does
with the empty `afterID`.  On the reference store, with an `afterID` that
parses to `oid`, the call returns no error, every returned note is a stored
note with id below `oid`, and ids descend along the result. -/
theorem listAfter_cursor_condition {σ : Type} (r : Repo σ) (s : σ) (q afterID : String)
    (limit : Int) :
    ((Repo.mk (mongo.recording r.col)).ListAfter (s, []) q afterID limit).1.2 =
      [mongo.Call.Find (listAfterFilter q afterID) (listAfterOpts limit)] ∧
    listAfterOpts limit =
      { Limit := some limit, Skip := none, SortBy := some (bson.single "_id" (.int32 (-1))),
        Projection := none } ∧
    (∀ oid, (listAfterFilter q afterID).lookup "_id" = some (.doc (bson.single "$lt" (.oid oid))) ↔
      (afterID ≠ "" ∧ primitive.ObjectIDFromHex afterID = some oid)) ∧
    ((listAfterFilter q afterID).lookup "_id" = none ↔
      ¬ (afterID ≠ "" ∧ ∃ oid, primitive.ObjectIDFromHex afterID = some oid)) ∧
    (∀ oid, afterID ≠ "" → primitive.ObjectIDFromHex afterID = some oid →
      listAfterFilter q afterID =
        (listAfterFilter q "").set "_id" (.doc (bson.single "$lt" (.oid oid)))) ∧
    (primitive.ObjectIDFromHex afterID = none →
      listAfterFilter q afterID = listAfterFilter q "" ∧
      r.ListAfter s q afterID limit = r.ListAfter s q "" limit) ∧
    (∀ oid, primitive.ObjectIDFromHex afterID = some oid →
      ∀ (ix : memstore.TextIndex) (st : memstore.State),
        ((memstore.repo ix).ListAfter st q afterID limit).2.2 = none ∧
        (∀ n ∈ ((memstore.repo ix).ListAfter st q afterID limit).2.1,
          n ∈ st.docs ∧ n.ID < oid) ∧
        (((memstore.repo ix).ListAfter st q afterID limit).2.1).Pairwise
          (fun a b => b.ID ≤ a.ID)) := by
  refine ⟨?_, ?_, ?_, ?_, ?_, ?_, ?_⟩
  · simp only [Repo.ListAfter, mongo.recording, List.nil_append]
    rcases r.col.Find s _ _ with ⟨s1, e | cur⟩
    · simp [collect]
    · cases hd : drain cur.docs [] <;> simp [collect, hd]
  · rfl
  · intro oid
    unfold listAfterFilter
    by_cases hq : q = "" <;> by_cases ha : afterID = "" <;>
      cases hp : primitive.ObjectIDFromHex afterID <;>
      simp [hq, ha, bson.Doc.set, bson.single, bson.Doc.lookup]
  · unfold listAfterFilter
    by_cases hq : q = "" <;> by_cases ha : afterID = "" <;>
      cases hp : primitive.ObjectIDFromHex afterID <;>
      simp [hq, ha, bson.Doc.set, bson.single, bson.Doc.lookup]
  · intro oid ha hp
    simp [listAfterFilter, ha, hp]
  · intro hp
    have hf : listAfterFilter q afterID = listAfterFilter q "" := by
      simp [listAfterFilter, hp]
    exact ⟨hf, by simp [Repo.ListAfter, hf]⟩
  · intro oid hp ix st
    rw [memstore.listAfter_on_store]
    refine ⟨rfl, ?_, ?_⟩
    · intro n hn
      have hsub := (memstore.window_sublist none (some limit) _).subset hn
      rw [List.mem_insertionSort, List.mem_filter] at hsub
      obtain ⟨hmem, hholds⟩ := hsub
      rw [memstore.holds_listAfterFilter ix q afterID oid hp] at hholds
      simp only [Bool.and_eq_true, decide_eq_true_eq] at hholds
      exact ⟨hmem, hholds.2⟩
    · haveI : IsTotal Note (fun a b => decide (b.ID ≤ a.ID) = true) :=
        ⟨fun a b => by
          simp only [decide_eq_true_eq]
          exact Nat.le_total b.ID a.ID⟩
      haveI : IsTrans Note (fun a b => decide (b.ID ≤ a.ID) = true) :=
        ⟨fun a b c hab hbc => by
          simp only [decide_eq_true_eq] at *
          exact Nat.le_trans hbc hab⟩
      have hsorted := List.sorted_insertionSort (fun a b : Note => decide (b.ID ≤ a.ID) = true)
        (st.docs.filter (memstore.holds ix (listAfterFilter q afterID)))
      have hpw := List.Pairwise.sublist (memstore.window_sublist none (some limit) _) hsorted
      exact hpw.imp (fun h => by simpa using h)

/-- C4 on a reference store holding the ids 1, 2 and 3: with the cursor id 3
the notes 2 and 1 come back, in that order. -/
theorem listAfter_cursor_condition_witness :
    primitive.ObjectIDFromHex "000000000000000000000003" = some 3 ∧
    (∀ n ∈ ((memstore.repo memstore.exactIndex).ListAfter memstore.threeNotes ""
        "000000000000000000000003" 10).2.1, n ∈ memstore.threeNotes.docs ∧ n.ID < 3) ∧
    ((memstore.repo memstore.exactIndex).ListAfter memstore.threeNotes ""
        "000000000000000000000003" 10).2.1.map (fun n => n.ID) = [2, 1] ∧
    (memstore.repo memstore.exactIndex).ListAfter memstore.threeNotes "" "3" 10 =
      (memstore.repo memstore.exactIndex).ListAfter memstore.threeNotes "" "" 10 :=
  ⟨by decide,
   ((listAfter_cursor_condition (memstore.repo memstore.exactIndex) memstore.threeNotes ""
      "000000000000000000000003" 10).2.2.2.2.2.2 3 (by decide) memstore.exactIndex
      memstore.threeNotes).2.1,
   by decide,
   ((listAfter_cursor_condition (memstore.repo memstore.exactIndex) memstore.threeNotes ""
      "3" 10).2.2.2.2.2.1 (by decide)).2⟩

/-! ### The query of `List` -/

/-- C5: `List` sends one `Find`.  For the empty search string the filter is
empty, nothing is projected and the sort is `createdAt: -1`; for any other
search string the filter is `$text: {$search: q}`, the sort is the text score
alone and the text score is projected.  The limit is the one given. -/
theorem list_query_by_search_string {σ : Type} (r : Repo σ) (s : σ) (q : String)
    (limit skip : Int) :
    ((Repo.mk (mongo.recording r.col)).List (s, []) q limit skip).1.2 =
      [mongo.Call.Find (listFilter q) (listOpts q limit skip)] ∧
    (q = "" →
      listFilter q = bson.Doc.nil ∧
      listOpts q limit skip =
        { Limit := some limit, Skip := some (if skip < 0 then 0 else skip),
          SortBy := some (bson.single "createdAt" (.int32 (-1))), Projection := none }) ∧
    (q ≠ "" →
      listFilter q = bson.single "$text" (.doc (bson.single "$search" (.str q))) ∧
      listOpts q limit skip =
        { Limit := some limit, Skip := some (if skip < 0 then 0 else skip),
          SortBy := some (bson.single "score" (.doc (bson.single "$meta" (.str "textScore")))),
          Projection :=
            some (bson.single "score" (.doc (bson.single "$meta" (.str "textScore")))) }) ∧
    (listOpts q limit skip).Limit = some limit := by
  refine ⟨?_, ?_, ?_, ?_⟩
  · simp only [Repo.List, mongo.recording, List.nil_append]
    rcases r.col.Find s _ _ with ⟨s1, e | cur⟩
    · simp [collect]
    · cases hd : drain cur.docs [] <;> simp [collect, hd]
  · intro hq
    simp [listFilter, listOpts, hq, options.Find, options.FindOptions.SetLimit,
      options.FindOptions.SetSort, options.FindOptions.SetSkip]
  · intro hq
    simp [listFilter, listOpts, hq, options.Find, options.FindOptions.SetLimit,
      options.FindOptions.SetSort, options.FindOptions.SetSkip,
      options.FindOptions.SetProjection, bson.Doc.set, bson.single]
  · by_cases hq : q = "" <;>
      simp [listOpts, hq, options.Find, options.FindOptions.SetLimit,
        options.FindOptions.SetSort, options.FindOptions.SetSkip,
        options.FindOptions.SetProjection]

/-- C5 at the search strings `""` and `"abc"`. -/
theorem list_query_by_search_string_witness :
    (listFilter "" = bson.Doc.nil ∧
      listOpts "" 2 0 =
        { Limit := some 2, Skip := some (if (0 : Int) < 0 then 0 else 0),
          SortBy := some (bson.single "createdAt" (.int32 (-1))), Projection := none }) ∧
    (listFilter "abc" = bson.single "$text" (.doc (bson.single "$search" (.str "abc"))) ∧
      listOpts "abc" 2 0 =
        { Limit := some 2, Skip := some (if (0 : Int) < 0 then 0 else 0),
          SortBy := some (bson.single "score" (.doc (bson.single "$meta" (.str "textScore")))),
          Projection :=
            some (bson.single "score" (.doc (bson.single "$meta" (.str "textScore")))) }) :=
  ⟨(list_query_by_search_string (memstore.repo memstore.exactIndex) memstore.twoNotes ""
      2 0).2.1 rfl,
   (list_query_by_search_string (memstore.repo memstore.exactIndex) memstore.twoNotes "abc"
      2 0).2.2.1 (by decide)⟩

/-! ### `Create` -/

/-- C6: `Create` sends the store one `InsertOne` with the note made of the
arguments and the clock reading.  If the insert succeeds with an object id,
`Create` returns that note under the id; whenever `Create` returns without
error, the note has the title and content given, `createdAt` and `updatedAt`
both equal to the clock reading, and the id the store assigned.  If the insert
fails, `Create` returns the zero note and the store's error as it is. -/
theorem create_outcomes {σ : Type} (r : Repo σ) (s : σ) (now : time.Time)
    (title content : String) :
    ((Repo.mk (mongo.recording r.col)).Create (s, []) now title content).1.2 =
      [mongo.Call.InsertOne
        { ID := primitive.NilObjectID, Title := title, Content := content, CreatedAt := now,
          UpdatedAt := now, ExpiresAt := none }] ∧
    (∀ id, (r.col.InsertOne s
        { ID := primitive.NilObjectID, Title := title, Content := content, CreatedAt := now,
          UpdatedAt := now, ExpiresAt := none }).2 = .ok { InsertedID := .oid id } →
      r.Create s now title content =
        ((r.col.InsertOne s
          { ID := primitive.NilObjectID, Title := title, Content := content, CreatedAt := now,
            UpdatedAt := now, ExpiresAt := none }).1,
          some ({ ID := id, Title := title, Content := content, CreatedAt := now,
                  UpdatedAt := now, ExpiresAt := none }, none))) ∧
    (∀ s1 n, r.Create s now title content = (s1, some (n, none)) →
      n.Title = title ∧ n.Content = content ∧ n.CreatedAt = now ∧ n.UpdatedAt = now ∧
      n.CreatedAt = n.UpdatedAt ∧ n.CreatedAt ≤ n.UpdatedAt ∧
      (r.col.InsertOne s
        { ID := primitive.NilObjectID, Title := title, Content := content, CreatedAt := now,
          UpdatedAt := now, ExpiresAt := none }).2 = .ok { InsertedID := .oid n.ID }) ∧
    (∀ e, (r.col.InsertOne s
        { ID := primitive.NilObjectID, Title := title, Content := content, CreatedAt := now,
          UpdatedAt := now, ExpiresAt := none }).2 = .error e →
      r.Create s now title content =
        ((r.col.InsertOne s
          { ID := primitive.NilObjectID, Title := title, Content := content, CreatedAt := now,
            UpdatedAt := now, ExpiresAt := none }).1,
          some (Note.zero, some (Error.driver e)))) := by
  refine ⟨?_, ?_, ?_, ?_⟩
  · simp only [Repo.Create, mongo.recording, List.nil_append]
    rcases r.col.InsertOne s _ with ⟨s1, e | res⟩
    · simp
    · cases ha : assertObjectID res.InsertedID <;> simp [ha]
  · simp only [Repo.Create]
    rcases r.col.InsertOne s _ with ⟨s1, e | res⟩
    · intro id hid
      simp at hid
    · intro id hid
      simp only [Except.ok.injEq] at hid
      subst hid
      simp [assertObjectID]
  · simp only [Repo.Create]
    rcases r.col.InsertOne s _ with ⟨s1, e | res⟩
    · intro s2 n hn
      simp at hn
    · intro s2 n hn
      obtain ⟨v⟩ := res
      cases v with
      | oid o =>
        simp only [assertObjectID, Prod.mk.injEq, Option.some.injEq, and_true] at hn
        obtain ⟨_, hn⟩ := hn
        subst hn
        simp
      | _ => simp [assertObjectID] at hn
  · simp only [Repo.Create]
    rcases r.col.InsertOne s _ with ⟨s1, e1 | res⟩
    · intro e he
      simp only [Except.error.injEq] at he
      subst he
      simp
    · intro e he
      simp at he

/-- C6 on a reference store holding one note titled `"a"`: creating `"b"`
succeeds under the next id, creating `"a"` again fails with the duplicate key
error of the store. -/
theorem create_outcomes_witness :
    (memstore.repo memstore.exactIndex).Create memstore.oneNote 150 "b" "xyz" =
      ({ docs := memstore.oneNote.docs ++
            [{ ID := 2, Title := "b", Content := "xyz", CreatedAt := 150, UpdatedAt := 150,
               ExpiresAt := none }],
         nextID := 3 },
        some ({ ID := 2, Title := "b", Content := "xyz", CreatedAt := 150, UpdatedAt := 150,
                ExpiresAt := none }, none)) ∧
    (memstore.repo memstore.exactIndex).Create memstore.oneNote 150 "a" "xyz" =
      (memstore.oneNote, some (Note.zero, some (Error.driver memstore.duplicateKey))) :=
  ⟨(create_outcomes (memstore.repo memstore.exactIndex) memstore.oneNote 150 "b" "xyz").2.1 2 rfl,
   (create_outcomes (memstore.repo memstore.exactIndex) memstore.oneNote 150 "a"
      "xyz").2.2.2 memstore.duplicateKey rfl⟩

/-! ### `Stats` -/

/-- C7: when the aggregation succeeds and its cursor holds no document and
no error, `Stats` returns the zero `Stats` and no error; when the cursor
holds a document that decodes, `Stats` returns that document.  On the
reference store an empty collection gives the zero `Stats`, and a collection
of two notes whose contents are three and five code points long gives a count
of 2 and a mean of 4. -/
theorem stats_outcomes {σ : Type} (r : Repo σ) (s : σ) :
    (∀ cur, (r.col.Aggregate s statsPipeline).2 = .ok cur → cur.docs = [] → cur.err = none →
      r.Stats s = ((r.col.Aggregate s statsPipeline).1,
        ({ Count := 0, AvgContentLen := 0 }, none))) ∧
    (∀ cur st rest, (r.col.Aggregate s statsPipeline).2 = .ok cur →
      cur.docs = .ok st :: rest →
      r.Stats s = ((r.col.Aggregate s statsPipeline).1, (st, none))) ∧
    (∀ (ix : memstore.TextIndex) (st : memstore.State), st.docs = [] →
      (memstore.repo ix).Stats st = (st, ({ Count := 0, AvgContentLen := 0 }, none))) ∧
    (∀ (ix : memstore.TextIndex) (st : memstore.State) (a b : Note), st.docs = [a, b] →
      a.Content.length = 3 → b.Content.length = 5 →
      (memstore.repo ix).Stats st = (st, ({ Count := 2, AvgContentLen := 4 }, none))) := by
  refine ⟨?_, ?_, ?_, ?_⟩
  · simp only [Repo.Stats]
    rcases r.col.Aggregate s statsPipeline with ⟨s1, e | cur1⟩
    · intro cur hcur
      simp at hcur
    · intro cur hcur hdocs herr
      simp only [Except.ok.injEq] at hcur
      subst hcur
      simp [hdocs, herr]
  · simp only [Repo.Stats]
    rcases r.col.Aggregate s statsPipeline with ⟨s1, e | cur1⟩
    · intro cur st rest hcur
      simp at hcur
    · intro cur st rest hcur hdocs
      simp only [Except.ok.injEq] at hcur
      subst hcur
      simp [hdocs]
  · intro ix st hd
    rw [memstore.stats_on_store, hd]
    simp
  · intro ix st a b hd ha hb
    rw [memstore.stats_on_store, hd]
    simp [ha, hb]
    norm_num

/-- C7 on the reference store holding the contents `"abc"` and `"héllo"`. -/
theorem stats_outcomes_witness :
    (memstore.repo memstore.exactIndex).Stats memstore.twoNotes =
      (memstore.twoNotes, ({ Count := 2, AvgContentLen := 4 }, none)) :=
  (stats_outcomes (memstore.repo memstore.exactIndex) memstore.twoNotes).2.2.2
    memstore.exactIndex memstore.twoNotes _ _ rfl (by decide) (by decide)

/-! ### Negative skip -/

/-- C8: with a negative skip `List` sends skip 0 and behaves on every store
as `List` with skip 0 does; a skip that is not negative is sent as it is. -/
theorem list_negative_skip_clamped {σ : Type} (r : Repo σ) (s : σ) (q : String)
    (limit skip : Int) :
    (skip < 0 →
      (listOpts q limit skip).Skip = some 0 ∧
      listOpts q limit skip = listOpts q limit 0 ∧
      r.List s q limit skip = r.List s q limit 0 ∧
      ((Repo.mk (mongo.recording r.col)).List (s, []) q limit skip).1.2 =
        [mongo.Call.Find (listFilter q) (listOpts q limit 0)]) ∧
    (0 ≤ skip → (listOpts q limit skip).Skip = some skip) := by
  constructor
  · intro hneg
    have hopts : listOpts q limit skip = listOpts q limit 0 := by
      simp [listOpts, hneg]
    refine ⟨?_, hopts, ?_, ?_⟩
    · by_cases hq : q = "" <;>
        simp [listOpts, hq, hneg, options.Find, options.FindOptions.SetLimit,
          options.FindOptions.SetSort, options.FindOptions.SetSkip,
          options.FindOptions.SetProjection]
    · simp [Repo.List, hopts]
    · simp only [Repo.List, mongo.recording, List.nil_append, hopts]
      rcases r.col.Find s _ _ with ⟨s1, e | cur⟩
      · simp [collect]
      · cases hd : drain cur.docs [] <;> simp [collect, hd]
  · intro hpos
    have hnot : ¬ skip < 0 := not_lt.mpr hpos
    by_cases hq : q = "" <;>
      simp [listOpts, hq, hnot, options.Find, options.FindOptions.SetLimit,
        options.FindOptions.SetSort, options.FindOptions.SetSkip,
        options.FindOptions.SetProjection]

/-- C8 at skip `-3` and at skip `1` on a reference store holding three
notes. -/
theorem list_negative_skip_clamped_witness :
    ((listOpts "" 10 (-3)).Skip = some 0 ∧
      listOpts "" 10 (-3) = listOpts "" 10 0 ∧
      (memstore.repo memstore.exactIndex).List memstore.threeNotes "" 10 (-3) =
        (memstore.repo memstore.exactIndex).List memstore.threeNotes "" 10 0 ∧
      ((Repo.mk (mongo.recording (memstore.repo memstore.exactIndex).col)).List
          (memstore.threeNotes, []) "" 10 (-3)).1.2 =
        [mongo.Call.Find (listFilter "") (listOpts "" 10 0)]) ∧
    (listOpts "" 10 1).Skip = some 1 :=
  ⟨(list_negative_skip_clamped (memstore.repo memstore.exactIndex) memstore.threeNotes "" 10
      (-3)).1 (by decide),
   (list_negative_skip_clamped (memstore.repo memstore.exactIndex) memstore.threeNotes "" 10
      1).2 (by decide)⟩

/-! ### `updatedAt` across an update -/

/-- C9, as stated, fails: on the reference store holding the note that
`Create` made at tick 100, an `Update` whose clock reading is again 100
succeeds and returns the note with `updatedAt` 100, which is not later than
the 100 it had. -/
theorem update_same_tick_not_later :
    (memstore.repo memstore.exactIndex).Create { docs := [], nextID := 1 } 100 "a" "abc" =
      (memstore.oneNote,
        some ({ ID := 1, Title := "a", Content := "abc", CreatedAt := 100, UpdatedAt := 100,
                ExpiresAt := none }, none)) ∧
    ((memstore.repo memstore.exactIndex).Update memstore.oneNote 100
        "000000000000000000000001" (some "b") none).2 =
      ({ ID := 1, Title := "b", Content := "abc", CreatedAt := 100, UpdatedAt := 100,
         ExpiresAt := none }, none) ∧
    ¬ (∀ (st st1 : memstore.State) (now : time.Time) (idHex : String)
        (title content : Option String) (oid : primitive.ObjectID) (old n1 : Note),
        primitive.ObjectIDFromHex idHex = some oid →
        st.docs.find? (fun m => decide (m.ID = oid)) = some old →
        (memstore.repo memstore.exactIndex).Update st now idHex title content =
          (st1, (n1, none)) →
        old.UpdatedAt < n1.UpdatedAt) := by
  refine ⟨by decide, by decide, ?_⟩
  intro hall
  have hlt := hall memstore.oneNote
    { docs := [{ ID := 1, Title := "b", Content := "abc", CreatedAt := 100, UpdatedAt := 100,
                 ExpiresAt := none }], nextID := 2 }
    100 "000000000000000000000001" (some "b") none 1
    { ID := 1, Title := "a", Content := "abc", CreatedAt := 100, UpdatedAt := 100,
      ExpiresAt := none }
    { ID := 1, Title := "b", Content := "abc", CreatedAt := 100, UpdatedAt := 100,
      ExpiresAt := none }
    (by decide) (by decide) (by decide)
  exact absurd hlt (by decide)

/-- C9, amended: a successful `Update` on the reference store returns the
stored note of that id with `updatedAt` equal to the clock reading of the call
and `createdAt` as it was; so `updatedAt` has grown exactly when the clock
reading is later than the `updatedAt` the note had, and it is not before
`createdAt` when the clock reading is not. -/
theorem update_stamps_clock_reading (ix : memstore.TextIndex) (st st1 : memstore.State)
    (now : time.Time) (idHex : String) (title content : Option String)
    (oid : primitive.ObjectID) (n1 : Note)
    (h : primitive.ObjectIDFromHex idHex = some oid)
    (hu : (memstore.repo ix).Update st now idHex title content = (st1, (n1, none))) :
    ∃ old, st.docs.find? (fun m => decide (m.ID = oid)) = some old ∧
      st1.docs.find? (fun m => decide (m.ID = oid)) = some n1 ∧
      n1.UpdatedAt = now ∧
      n1.CreatedAt = old.CreatedAt ∧
      (old.UpdatedAt < n1.UpdatedAt ↔ old.UpdatedAt < now) ∧
      (old.CreatedAt ≤ now → n1.CreatedAt ≤ n1.UpdatedAt) := by
  obtain ⟨old, hfind, hn1, hst1⟩ := memstore.update_ok ix st st1 now idHex title content oid n1 h hu
  have hid : old.ID = oid := by
    have := List.find?_some hfind
    simpa using this
  have hU : n1.UpdatedAt = now := by rw [hn1]
  have hC : n1.CreatedAt = old.CreatedAt := by rw [hn1]
  have hI : n1.ID = oid := by rw [hn1]; exact hid
  refine ⟨old, hfind, ?_, hU, hC, ?_, ?_⟩
  · rw [hst1]
    exact memstore.find_replaceFirst _ n1 old st.docs hfind (by simpa using hI)
  · rw [hU]
  · intro hle
    rw [hU, hC]
    exact hle

/-- C9, amended, on the reference store holding the note made at tick 100:
an update at tick 250 succeeds and returns the note with `updatedAt` 250. -/
theorem update_stamps_clock_reading_witness :
    (memstore.repo memstore.exactIndex).Update memstore.oneNote 250
        "000000000000000000000001" (some "b") none =
      (memstore.oneNoteRetitled, (memstore.retitledNote, none)) ∧
    ∃ old, memstore.oneNote.docs.find? (fun m => decide (m.ID = 1)) = some old ∧
      memstore.oneNoteRetitled.docs.find? (fun m => decide (m.ID = 1)) =
        some memstore.retitledNote ∧
      memstore.retitledNote.UpdatedAt = 250 ∧
      memstore.retitledNote.CreatedAt = old.CreatedAt ∧
      (old.UpdatedAt < memstore.retitledNote.UpdatedAt ↔ old.UpdatedAt < 250) ∧
      (old.CreatedAt ≤ 250 →
        memstore.retitledNote.CreatedAt ≤ memstore.retitledNote.UpdatedAt) :=
  ⟨by decide,
   update_stamps_clock_reading memstore.exactIndex memstore.oneNote memstore.oneNoteRetitled
    250 "000000000000000000000001" (some "b") none 1 memstore.retitledNote
    (by decide) (by decide)⟩

/-! ### Errors of the list methods -/

/-- C10 fails on the code: when the cursor reports an error after the loop
has ended, both list methods return that error next to the notes decoded so
far.  On the reference store holding three notes, behind a connection that
breaks after the first document, `List` and `ListAfter` return one note and
the connection error. -/
theorem list_returns_notes_with_cursor_error :
    (∀ (σ : Type) (s : σ) (xs : List Note) (e : mongo.DriverError),
      collect (s, .ok { docs := xs.map Except.ok, err := some e }) =
        (s, (xs, some (Error.driver e)))) ∧
    ((Repo.mk (mongo.breaking (memstore.collection memstore.exactIndex))).List
        memstore.threeNotes "" 10 0).2 =
      ([{ ID := 3, Title := "c", Content := "", CreatedAt := 120, UpdatedAt := 120,
          ExpiresAt := none }],
        some (Error.driver (.other "connection reset by peer"))) ∧
    ((Repo.mk (mongo.breaking (memstore.collection memstore.exactIndex))).ListAfter
        memstore.threeNotes "" "" 10).2 =
      ([{ ID := 3, Title := "c", Content := "", CreatedAt := 120, UpdatedAt := 120,
          ExpiresAt := none }],
        some (Error.driver (.other "connection reset by peer"))) := by
  refine ⟨?_, by decide, by decide⟩
  intro σ s xs e
  simp [collect, memstore.drain_ok]

end notes
